import Mathlib

/-!
Verification of the free-queue ring buffer (src/src/freequeue.cpp and
src/src/free_queue.cpp) against its natural-language specification.

The queue state is embedded shallowly: the C struct's two atomic cursors
become two `Nat` fields, the per-channel sample arrays become
`List (List Sample)`, and each C loop becomes a structural recursion that
performs the writes in the same order as the source.  Samples are only
ever copied, never combined arithmetically, so the C `float` / `double`
sample type is modelled by `Int`.

Machine integers are modelled by `Nat`; the C expressions whose uint32
subtraction can genuinely wrap around zero (the index arithmetic of
`FQ_FreeQueuePullBack`, and the cursor/index arithmetic of the
insufficient-room branches of `FQ_FreeQueuePushFront` and
`FQ_FreeQueuePushBack`) are embedded with an explicit `% 2 ^ 32` via
`wrap32`, so the wrap-around behaviour of the source is preserved exactly.
-/

namespace FQSpec

/-- Sample values (C `float` in freequeue.cpp, `double` in free_queue.cpp);
the code only copies samples, so they are modelled by `Int`. -/
abbrev Sample := Int

/-- Unsigned 32-bit wrap-around, for the C subexpressions whose uint32
subtraction can underflow. -/
def wrap32 (n : Int) : Nat := (n % (2 ^ 32)).toNat

/-- Read `channel_data[ch][i]`; out-of-range reads default to `0`
(the buffers are zero-initialised by `FQ_FreeQueueCreate`). -/
def getSample (data : List (List Sample)) (ch i : Nat) : Sample :=
  (data.getD ch []).getD i 0

/-- Write `channel_data[ch][i] = v` (no-op when out of range, which never
happens on the in-range accesses the theorems are about). -/
def setSample (data : List (List Sample)) (ch i : Nat) (v : Sample) :
    List (List Sample) :=
  data.set ch ((data.getD ch []).set i v)

/-- The `struct FQ_FreeQueue` of freequeue.h: `buffer_length` is the
physical length (capacity + 1), `read`/`write` are the two cursors held in
`state[READ]` / `state[WRITE]`. -/
structure FQ_FreeQueue where
  buffer_length : Nat
  channel_count : Nat
  channel_data : List (List Sample)
  read : Nat
  write : Nat
deriving DecidableEq, Repr

/-- Well-formedness of a queue state: every state produced by
`FQ_FreeQueueCreate` and preserved by the operations satisfies this. -/
def QueueWF (q : FQ_FreeQueue) : Prop :=
  0 < q.buffer_length ∧ q.read < q.buffer_length ∧ q.write < q.buffer_length ∧
    q.channel_data.length = q.channel_count ∧
    ∀ l ∈ q.channel_data, l.length = q.buffer_length

instance (q : FQ_FreeQueue) : Decidable (QueueWF q) := by
  unfold QueueWF; exact inferInstance

/-- Source: freequeue.cpp lines 18-24 (identical function at
free_queue.cpp lines 39-48); the struct is consulted only for
`buffer_length`, which is passed directly here. -/
def _getAvailableRead (buffer_length read_index write_index : Nat) : Nat :=
  if write_index ≥ read_index then write_index - read_index
  else write_index + buffer_length - read_index

/-- Source: freequeue.cpp lines 26-31 (identical function at
free_queue.cpp lines 50-59). -/
def _getAvailableWrite (buffer_length read_index write_index : Nat) : Nat :=
  if write_index ≥ read_index then buffer_length - write_index + read_index - 1
  else read_index - write_index - 1

/-- Inner channel loop of the copy-in loops of `FQ_FreeQueuePush` (and of
the sufficient-room branches of PushFront/PushBack, and of
`FreeQueuePush`): `channel_data[c][(w + i) % len] = input[c][i]` for
`c = 0, …, chc-1`. -/
def writeRow (d input : List (List Sample)) (w len i : Nat) :
    Nat → List (List Sample)
  | 0 => d
  | c + 1 => setSample (writeRow d input w len i c) c ((w + i) % len)
      (getSample input c i)

/-- Outer loop of the block copy of `FQ_FreeQueuePush` (freequeue.cpp
lines 151-158): rows `i = 0, …, n-1` in ascending order, channels inner. -/
def copyIn (d input : List (List Sample)) (w len chc : Nat) :
    Nat → List (List Sample)
  | 0 => d
  | n + 1 => writeRow (copyIn d input w len chc n) input w len n chc

/-- Output block of the pull operations reading forward from cursor `r`:
`output[ch][i] = channel_data[ch][(r + i) % len]`. -/
def outBlock (d : List (List Sample)) (r len chc bl : Nat) :
    List (List Sample) :=
  (List.range chc).map fun ch =>
    (List.range bl).map fun i => getSample d ch ((r + i) % len)

/-- Output block of `FQ_FreeQueuePullBack` (freequeue.cpp line 334):
`output[ch][i] = channel_data[ch][(w - bl + i) % len]` where the
subtraction is uint32 arithmetic, hence `wrap32`. -/
def outBlockBack (d : List (List Sample)) (w len chc bl : Nat) :
    List (List Sample) :=
  (List.range chc).map fun ch =>
    (List.range bl).map fun i =>
      getSample d ch (wrap32 ((w : Int) - bl + i) % len)

/-- Source: freequeue.cpp lines 102-120, `FQ_FreeQueueCreate`:
physical length is `length + 1`, cursors zero, all slots zero-filled. -/
def FQ_FreeQueueCreate (length channel_count : Nat) : FQ_FreeQueue :=
  { buffer_length := length + 1
    channel_count := channel_count
    channel_data := List.replicate channel_count (List.replicate (length + 1) 0)
    read := 0
    write := 0 }

/-- Source: freequeue.cpp lines 141-165, `FQ_FreeQueuePush`.  The null
pointer is modelled by `none`; the result pairs the returned `bool` with
the queue state after the call. -/
def FQ_FreeQueuePush (queue : Option FQ_FreeQueue)
    (input : List (List Sample)) (block_length : Nat) :
    Bool × Option FQ_FreeQueue :=
  match queue with
  | none => (false, none)
  | some q =>
    if _getAvailableWrite q.buffer_length q.read q.write < block_length then
      (false, some q)
    else
      (true, some { q with
        channel_data := copyIn q.channel_data input q.write q.buffer_length
          q.channel_count block_length
        write := (q.write + block_length) % q.buffer_length })

/-- Source: freequeue.cpp lines 256-280, `FQ_FreeQueuePull`.  The result
is the returned count, the output block written into the caller's buffers
(empty on the failure path, which leaves the caller's buffers untouched),
and the queue state after the call. -/
def FQ_FreeQueuePull (queue : Option FQ_FreeQueue) (block_length : Nat)
    (increment : Bool) : Nat × List (List Sample) × Option FQ_FreeQueue :=
  match queue with
  | none => (0, [], none)
  | some q =>
    if _getAvailableRead q.buffer_length q.read q.write < block_length then
      (0, [], some q)
    else
      (block_length,
       outBlock q.channel_data q.read q.buffer_length q.channel_count
         block_length,
       some (if increment then
         { q with read := (q.read + block_length) % q.buffer_length }
       else q))

/-- Source: freequeue.cpp lines 289-315, `FQ_FreeQueuePullFront`:
the requested length is first clamped down to the available read count. -/
def FQ_FreeQueuePullFront (queue : Option FQ_FreeQueue) (block_length : Nat)
    (increment : Bool) : Nat × List (List Sample) × Option FQ_FreeQueue :=
  match queue with
  | none => (0, [], none)
  | some q =>
    let availableRead := _getAvailableRead q.buffer_length q.read q.write
    let bl := if availableRead < block_length then availableRead else block_length
    (bl,
     outBlock q.channel_data q.read q.buffer_length q.channel_count bl,
     some (if increment then
       { q with read := (q.read + bl) % q.buffer_length }
     else q))

/-- Source: freequeue.cpp lines 318-344, `FQ_FreeQueuePullBack`: like
PullFront but reading at `(current_write - block_length + i) % len`, a
uint32 expression that wraps when the clamped length exceeds the write
cursor (hence `outBlockBack` / `wrap32`). -/
def FQ_FreeQueuePullBack (queue : Option FQ_FreeQueue) (block_length : Nat)
    (increment : Bool) : Nat × List (List Sample) × Option FQ_FreeQueue :=
  match queue with
  | none => (0, [], none)
  | some q =>
    let availableRead := _getAvailableRead q.buffer_length q.read q.write
    let bl := if availableRead < block_length then availableRead else block_length
    (bl,
     outBlockBack q.channel_data q.write q.buffer_length q.channel_count bl,
     some (if increment then
       { q with read := (q.read + bl) % q.buffer_length }
     else q))

/-- Inner channel loop of the shift loop of `FQ_FreeQueuePushFront`
(freequeue.cpp lines 190-194):
`channel_data[c][(i + bl) % len] = channel_data[c][i % len]`. -/
def frontShiftRow (d : List (List Sample)) (bl len i : Nat) :
    Nat → List (List Sample)
  | 0 => d
  | c + 1 =>
    setSample (frontShiftRow d bl len i c) c ((i + bl) % len)
      (getSample (frontShiftRow d bl len i c) c (i % len))

/-- Outer shift loop of `FQ_FreeQueuePushFront`, rows ascending. -/
def frontShift (d : List (List Sample)) (bl len chc : Nat) :
    Nat → List (List Sample)
  | 0 => d
  | n + 1 => frontShiftRow (frontShift d bl len chc n) bl len n chc

/-- Inner channel loop of the head-write loop of `FQ_FreeQueuePushFront`
(freequeue.cpp lines 195-199): `channel_data[c][i % len] = input[c][i]`. -/
def frontWriteRow (d input : List (List Sample)) (len i : Nat) :
    Nat → List (List Sample)
  | 0 => d
  | c + 1 => setSample (frontWriteRow d input len i c) c (i % len)
      (getSample input c i)

/-- Outer head-write loop of `FQ_FreeQueuePushFront`, rows ascending. -/
def frontWrite (d input : List (List Sample)) (len chc : Nat) :
    Nat → List (List Sample)
  | 0 => d
  | n + 1 => frontWriteRow (frontWrite d input len chc n) input len n chc

/-- Source: freequeue.cpp lines 176-214, `FQ_FreeQueuePushFront`:
fails up front when `buffer_length < block_length`; when room is
insufficient it shifts the contents and writes at the head, otherwise it
copies exactly like `FQ_FreeQueuePush`.  `current_write - block_length +
availableWrite` is uint32 arithmetic, hence `wrap32`. -/
def FQ_FreeQueuePushFront (queue : Option FQ_FreeQueue)
    (input : List (List Sample)) (block_length : Nat) :
    Bool × Option FQ_FreeQueue :=
  match queue with
  | none => (false, none)
  | some q =>
    if q.buffer_length < block_length then (false, some q)
    else
      let availableWrite := _getAvailableWrite q.buffer_length q.read q.write
      if availableWrite < block_length then
        (true, some { q with
          channel_data := frontWrite
            (frontShift q.channel_data block_length q.buffer_length
              q.channel_count
              (q.buffer_length - (block_length - availableWrite)))
            input q.buffer_length q.channel_count block_length
          write := wrap32 ((q.write : Int) - block_length + availableWrite) %
            q.buffer_length })
      else
        (true, some { q with
          channel_data := copyIn q.channel_data input q.write q.buffer_length
            q.channel_count block_length
          write := (q.write + block_length) % q.buffer_length })

/-- Inner channel loop of the shift loop of `FQ_FreeQueuePushBack`
(freequeue.cpp lines 229-233):
`channel_data[c][i] = channel_data[c][i + dis]` where
`dis = block_length - availableWrite`. -/
def backShiftRow (d : List (List Sample)) (dis i : Nat) :
    Nat → List (List Sample)
  | 0 => d
  | c + 1 =>
    setSample (backShiftRow d dis i c) c i
      (getSample (backShiftRow d dis i c) c (i + dis))

/-- Outer shift loop of `FQ_FreeQueuePushBack`, rows ascending. -/
def backShift (d : List (List Sample)) (dis chc : Nat) :
    Nat → List (List Sample)
  | 0 => d
  | n + 1 => backShiftRow (backShift d dis chc n) dis n chc

/-- Inner channel loop of the tail-write loop of `FQ_FreeQueuePushBack`
(freequeue.cpp lines 234-238):
`channel_data[c][(w - dis + i) % len] = input[c][i]`, a uint32 expression
that wraps when `dis > w`, hence `wrap32`. -/
def backWriteRow (d input : List (List Sample)) (w dis len i : Nat) :
    Nat → List (List Sample)
  | 0 => d
  | c + 1 => setSample (backWriteRow d input w dis len i c) c
      (wrap32 ((w : Int) - dis + i) % len) (getSample input c i)

/-- Outer tail-write loop of `FQ_FreeQueuePushBack`, rows ascending. -/
def backWrite (d input : List (List Sample)) (w dis len chc : Nat) :
    Nat → List (List Sample)
  | 0 => d
  | n + 1 => backWriteRow (backWrite d input w dis len chc n) input w dis len
      n chc

/-- Source: freequeue.cpp lines 217-253, `FQ_FreeQueuePushBack`.  The
outer `Option` models the memory fault of the insufficient-room branch:
its shift-loop bound `buffer_length - (block_length - availableWrite)` is
uint32 arithmetic, so when `block_length - availableWrite >
buffer_length` the bound underflows to nearly `2^32` and the loop reads
and writes far past the end of every channel buffer; that execution is
modelled as `none`.  When the bound does not underflow the function is
total and the outer value is `some`. -/
def FQ_FreeQueuePushBack (queue : Option FQ_FreeQueue)
    (input : List (List Sample)) (block_length : Nat) :
    Option (Bool × Option FQ_FreeQueue) :=
  match queue with
  | none => some (false, none)
  | some q =>
    let availableWrite := _getAvailableWrite q.buffer_length q.read q.write
    if availableWrite < block_length then
      if q.buffer_length < block_length - availableWrite then
        none
      else
        some (true, some { q with
          channel_data := backWrite
            (backShift q.channel_data (block_length - availableWrite)
              q.channel_count
              (q.buffer_length - (block_length - availableWrite)))
            input q.write (block_length - availableWrite) q.buffer_length
            q.channel_count block_length
          write := wrap32 ((q.write : Int) - block_length + availableWrite) %
            q.buffer_length })
    else
      some (true, some { q with
        channel_data := copyIn q.channel_data input q.write q.buffer_length
          q.channel_count block_length
        write := (q.write + block_length) % q.buffer_length })

/-- The `struct FreeQueue` of free_queue.cpp lines 16-21 (the second API
variant; `double` samples, same layout). -/
structure FreeQueue where
  buffer_length : Nat
  channel_count : Nat
  channel_data : List (List Sample)
  read : Nat
  write : Nat
deriving DecidableEq, Repr

/-- Source: free_queue.cpp lines 97-115, `FreeQueuePush`.  Unlike the
`FQ_` variant this function performs no null check: it dereferences the
handle immediately (`atomic_load(queue->state + READ)`), so a null handle
is a fault, modelled by `none`. -/
def FreeQueuePush (queue : Option FreeQueue) (input : List (List Sample))
    (block_length : Nat) : Option (Bool × FreeQueue) :=
  queue.map fun q =>
    if _getAvailableWrite q.buffer_length q.read q.write < block_length then
      (false, q)
    else
      (true, { q with
        channel_data := copyIn q.channel_data input q.write q.buffer_length
          q.channel_count block_length
        write := (q.write + block_length) % q.buffer_length })

/-- Source: free_queue.cpp lines 118-136, `FreeQueuePull`.  No null
check either (the fault on a null handle is modelled by `none`); the pull
always advances the read cursor on success. -/
def FreeQueuePull (queue : Option FreeQueue) (block_length : Nat) :
    Option (Bool × List (List Sample) × FreeQueue) :=
  queue.map fun q =>
    if _getAvailableRead q.buffer_length q.read q.write < block_length then
      (false, [], q)
    else
      (true,
       outBlock q.channel_data q.read q.buffer_length q.channel_count
         block_length,
       { q with read := (q.read + block_length) % q.buffer_length })

/-- The logically readable content of channel `ch`: the
`_getAvailableRead` samples starting at the read cursor. -/
def readableContent (q : FQ_FreeQueue) (ch : Nat) : List Sample :=
  (List.range (_getAvailableRead q.buffer_length q.read q.write)).map
    fun i => getSample q.channel_data ch ((q.read + i) % q.buffer_length)

/-! ### List get/set helper lemmas -/

theorem getD_set {α : Type} (l : List α) (i j : Nat) (v d : α) :
    (l.set i v).getD j d = if i = j ∧ i < l.length then v else l.getD j d := by
  induction l generalizing i j with
  | nil => simp
  | cons a t ih =>
    cases i with
    | zero =>
      cases j with
      | zero => simp
      | succ m => simp
    | succ n =>
      cases j with
      | zero => simp
      | succ m =>
        simp only [List.set_cons_succ, List.getD_cons_succ, ih n m,
          List.length_cons]
        by_cases h : n = m ∧ n < t.length
        · rw [if_pos h, if_pos ⟨by omega, by omega⟩]
        · rw [if_neg h, if_neg (by omega)]

theorem getSample_setSample (data : List (List Sample)) (ch i : Nat)
    (v : Sample) (c j : Nat) :
    getSample (setSample data ch i v) c j =
      if ch = c ∧ ch < data.length ∧ i = j ∧ i < (data.getD ch []).length then
        v
      else getSample data c j := by
  unfold getSample setSample
  rw [getD_set]
  by_cases h1 : ch = c ∧ ch < data.length
  · rw [if_pos h1, getD_set]
    obtain ⟨rfl, h1b⟩ := h1
    by_cases h2 : i = j ∧ i < (data.getD ch []).length
    · rw [if_pos h2, if_pos ⟨rfl, h1b, h2⟩]
    · rw [if_neg h2, if_neg (by tauto)]
  · rw [if_neg h1, if_neg (by tauto)]

theorem length_setSample (data : List (List Sample)) (ch i : Nat)
    (v : Sample) : (setSample data ch i v).length = data.length := by
  unfold setSample; exact List.length_set data ch _

theorem getD_length_setSample (data : List (List Sample)) (ch i : Nat)
    (v : Sample) (c : Nat) :
    ((setSample data ch i v).getD c []).length = (data.getD c []).length := by
  unfold setSample
  rw [getD_set]
  by_cases h : ch = c ∧ ch < data.length
  · rw [if_pos h, List.length_set]
    obtain ⟨rfl, _⟩ := h; rfl
  · rw [if_neg h]

/-- Distinctness of ring slots: rows `i < m` with `m - i < len` land on
distinct physical slots. -/
theorem mod_slot_ne (len w i m : Nat) (him : i < m) (hm : m - i < len) :
    (w + i) % len ≠ (w + m) % len := by
  intro h
  have h2 : len ∣ (w + m) - (w + i) :=
    (Nat.modEq_iff_dvd' (by omega)).mp h
  have h3 : len ≤ (w + m) - (w + i) := Nat.le_of_dvd (by omega) h2
  omega

/-! ### Shape preservation through the copy loops -/

theorem length_writeRow (d input : List (List Sample)) (w len i c : Nat) :
    (writeRow d input w len i c).length = d.length := by
  induction c with
  | zero => rfl
  | succ c ih => rw [writeRow, length_setSample, ih]

theorem getD_length_writeRow (d input : List (List Sample))
    (w len i c ch : Nat) :
    ((writeRow d input w len i c).getD ch []).length =
      (d.getD ch []).length := by
  induction c with
  | zero => rfl
  | succ c ih => rw [writeRow, getD_length_setSample, ih]

theorem length_copyIn (d input : List (List Sample)) (w len chc n : Nat) :
    (copyIn d input w len chc n).length = d.length := by
  induction n with
  | zero => rfl
  | succ n ih => rw [copyIn, length_writeRow, ih]

theorem getD_length_copyIn (d input : List (List Sample))
    (w len chc n ch : Nat) :
    ((copyIn d input w len chc n).getD ch []).length =
      (d.getD ch []).length := by
  induction n with
  | zero => rfl
  | succ n ih => rw [copyIn, getD_length_writeRow, ih]

/-! ### Read-back through the copy loops -/

theorem getSample_writeRow_other (d input : List (List Sample))
    (w len i c ch slot : Nat) (hslot : slot ≠ (w + i) % len) :
    getSample (writeRow d input w len i c) ch slot = getSample d ch slot := by
  induction c with
  | zero => rfl
  | succ c ih =>
    rw [writeRow, getSample_setSample,
      if_neg (by intro h; exact hslot (h.2.2.1.symm)), ih]

theorem getSample_writeRow_self (d input : List (List Sample))
    (w len i c ch : Nat) (hch : ch < c) (hchd : ch < d.length)
    (hrow : (d.getD ch []).length = len) (hlen : 0 < len) :
    getSample (writeRow d input w len i c) ch ((w + i) % len) =
      getSample input ch i := by
  induction c with
  | zero => omega
  | succ c ih =>
    rw [writeRow, getSample_setSample]
    rcases Nat.lt_or_ge ch c with hlt | hge
    · rw [if_neg (by intro h; omega), ih hlt]
    · have hch' : ch = c := by omega
      subst hch'
      rw [if_pos ⟨rfl, by rw [length_writeRow]; exact hchd, rfl,
        by rw [getD_length_writeRow, hrow]; exact Nat.mod_lt _ hlen⟩]

theorem getSample_copyIn_eq (d input : List (List Sample))
    (w len chc n : Nat) (hn : n ≤ len) (ch : Nat) (hch : ch < chc)
    (hchd : ch < d.length) (hrow : (d.getD ch []).length = len)
    (i : Nat) (hi : i < n) :
    getSample (copyIn d input w len chc n) ch ((w + i) % len) =
      getSample input ch i := by
  induction n with
  | zero => omega
  | succ n ih =>
    rw [copyIn]
    rcases Nat.lt_or_ge i n with hlt | hge
    · rw [getSample_writeRow_other _ _ _ _ _ _ _ _
        (mod_slot_ne len w i n hlt (by omega)), ih (by omega) hlt]
    · have hi' : i = n := by omega
      subst hi'
      exact getSample_writeRow_self _ _ _ _ _ _ _ hch
        (by rw [length_copyIn]; exact hchd)
        (by rw [getD_length_copyIn]; exact hrow) (by omega)

/-- The available-write count is below the physical length for in-range
cursors. -/
theorem availWrite_lt (len r w : Nat) (hr : r < len) (hw : w < len) :
    _getAvailableWrite len r w < len := by
  unfold _getAvailableWrite
  split <;> omega

/-- Row `ch` of a well-formed data matrix has length `len`. -/
theorem getD_length_of_forall {data : List (List Sample)} {len : Nat}
    (hrows : ∀ l ∈ data, l.length = len) {ch : Nat}
    (hch : ch < data.length) : (data.getD ch []).length = len := by
  rw [List.getD_eq_getElem data [] hch]
  exact hrows _ (List.getElem_mem hch)

/-! ### Claim theorems -/

/-- Claim C2: for cursors `r, w` in `[0, physical_length)`,
`_getAvailableRead` equals the mathematical `(w - r) mod physical_length`,
and `_getAvailableRead + _getAvailableWrite = physical_length - 1`. -/
theorem availability_spec (len r w : Nat) (hr : r < len) (hw : w < len) :
    ((_getAvailableRead len r w : Nat) : Int) = ((w : Int) - r) % len ∧
      _getAvailableRead len r w + _getAvailableWrite len r w = len - 1 := by
  constructor
  · unfold _getAvailableRead
    rcases Nat.lt_or_ge w r with hlt | hge
    · rw [if_neg (by omega)]
      have h1 : ((w : Int) - r) % len = ((w : Int) - r + len) % len := by
        simp
      rw [h1, Int.emod_eq_of_lt (by omega) (by omega)]
      omega
    · rw [if_pos (by omega), Int.emod_eq_of_lt (by omega) (by omega)]
      omega
  · unfold _getAvailableRead _getAvailableWrite
    rcases Nat.lt_or_ge w r with hlt | hge
    · rw [if_neg (by omega), if_neg (by omega)]; omega
    · rw [if_pos (by omega), if_pos (by omega)]; omega

/-- Witness for `availability_spec` at `len = 5, r = 3, w = 1`. -/
theorem availability_spec_witness :
    ((_getAvailableRead 5 3 1 : Nat) : Int) = ((1 : Int) - 3) % 5 ∧
      _getAvailableRead 5 3 1 + _getAvailableWrite 5 3 1 = 5 - 1 :=
  availability_spec 5 3 1 (by decide) (by decide)

/-- Claim C1: `FQ_FreeQueuePush` on a non-null queue returns `false` and
leaves the whole state unchanged when `_getAvailableWrite` is below the
block length; otherwise it returns `true`, stores `input[ch][i]` at slot
`(write + i) % physical_length` of every channel, keeps the read cursor,
and advances the write cursor to
`(write + block_length) % physical_length`. -/
theorem push_spec (q : FQ_FreeQueue) (hwf : QueueWF q)
    (input : List (List Sample)) (block_length : Nat) :
    (_getAvailableWrite q.buffer_length q.read q.write < block_length →
      FQ_FreeQueuePush (some q) input block_length = (false, some q)) ∧
      (block_length ≤ _getAvailableWrite q.buffer_length q.read q.write →
        ∃ q', FQ_FreeQueuePush (some q) input block_length = (true, some q') ∧
          q'.read = q.read ∧
          q'.write = (q.write + block_length) % q.buffer_length ∧
          q'.buffer_length = q.buffer_length ∧
          q'.channel_count = q.channel_count ∧
          ∀ ch < q.channel_count, ∀ i < block_length,
            getSample q'.channel_data ch ((q.write + i) % q.buffer_length) =
              getSample input ch i) := by
  obtain ⟨hlen, hr, hw, hcount, hrows⟩ := hwf
  constructor
  · intro h
    simp only [FQ_FreeQueuePush]
    rw [if_pos h]
  · intro h
    refine ⟨{ q with
        channel_data := copyIn q.channel_data input q.write q.buffer_length
          q.channel_count block_length
        write := (q.write + block_length) % q.buffer_length },
      ?_, rfl, rfl, rfl, rfl, ?_⟩
    · simp only [FQ_FreeQueuePush]
      rw [if_neg (Nat.not_lt.2 h)]
    · intro ch hch i hi
      have haw := availWrite_lt q.buffer_length q.read q.write hr hw
      exact getSample_copyIn_eq _ _ _ _ _ _ (by omega) ch hch
        (by omega) (getD_length_of_forall hrows (by omega)) i hi

/-- Witness for `push_spec`: capacity 4, one channel, cursors `r = 0`,
`w = 3`, pushing a block of length 2 (only 1 slot is free, so the first
conjunct applies; the second holds vacuously there, so the witness also
instantiates a successful push from the empty state). -/
theorem push_spec_witness :
    QueueWF ⟨5, 1, [[0, 0, 0, 0, 0]], 0, 3⟩ ∧
      QueueWF ⟨5, 1, [[0, 0, 0, 0, 0]], 4, 4⟩ ∧
      (_getAvailableWrite 5 0 3 < 2 →
        FQ_FreeQueuePush (some ⟨5, 1, [[0, 0, 0, 0, 0]], 0, 3⟩) [[1, 2]] 2 =
          (false, some ⟨5, 1, [[0, 0, 0, 0, 0]], 0, 3⟩)) ∧
      (2 ≤ _getAvailableWrite 5 4 4 →
        ∃ q', FQ_FreeQueuePush (some ⟨5, 1, [[0, 0, 0, 0, 0]], 4, 4⟩)
            [[1, 2]] 2 = (true, some q') ∧
          q'.read = 4 ∧ q'.write = (4 + 2) % 5 ∧ q'.buffer_length = 5 ∧
          q'.channel_count = 1 ∧
          ∀ ch < 1, ∀ i < 2,
            getSample q'.channel_data ch ((4 + i) % 5) =
              getSample [[1, 2]] ch i) :=
  ⟨by decide, by decide,
    (push_spec ⟨5, 1, [[0, 0, 0, 0, 0]], 0, 3⟩ (by decide) [[1, 2]] 2).1,
    (push_spec ⟨5, 1, [[0, 0, 0, 0, 0]], 4, 4⟩ (by decide) [[1, 2]] 2).2⟩

/-- Available-read count right after advancing the write cursor by `k`
from a state whose cursors coincide. -/
theorem availRead_after (len w k : Nat) (hw : w < len) (hk : k < len) :
    _getAvailableRead len w ((w + k) % len) = k := by
  unfold _getAvailableRead
  rcases Nat.lt_or_ge (w + k) len with hlt | hge
  · rw [Nat.mod_eq_of_lt hlt, if_pos (by omega)]
    omega
  · have h1 : (w + k) % len = w + k - len := by
      rw [Nat.mod_eq_sub_mod hge, Nat.mod_eq_of_lt (by omega)]
    rw [h1, if_neg (by omega)]
    omega

/-- Claim C3 counterexample: the round-trip property fails on a reachable
non-empty queue.  Starting from `FQ_FreeQueueCreate 4 1`, push `[7]`
(reaching a state with one unread sample), then push `[9]` (`k = 1 ≤
available_write = 3`) and pull one sample: the pull returns the older
sample `7`, not the just-pushed `9`. -/
theorem roundtrip_cex :
    FQ_FreeQueuePush (some (FQ_FreeQueueCreate 4 1)) [[7]] 1 =
      (true, some ⟨5, 1, [[7, 0, 0, 0, 0]], 0, 1⟩) ∧
      FQ_FreeQueuePush (some ⟨5, 1, [[7, 0, 0, 0, 0]], 0, 1⟩) [[9]] 1 =
        (true, some ⟨5, 1, [[7, 9, 0, 0, 0]], 0, 2⟩) ∧
      1 ≤ _getAvailableWrite 5 0 1 ∧
      (FQ_FreeQueuePull (some ⟨5, 1, [[7, 9, 0, 0, 0]], 0, 2⟩) 1 true).2.1 =
        [[7]] ∧
      ([[7]] : List (List Sample)) ≠ [[9]] := by decide

/-- Claim C3 (amended): for every well-formed queue state that is empty
(`read_index = write_index`) and every `k ≤ available_write`, pushing a
block of `k` samples per channel and then pulling `k` samples per channel
yields exactly the pushed values, per channel, in order, including when
the copy crosses the wrap boundary. -/
theorem push_pull_roundtrip (q : FQ_FreeQueue) (hwf : QueueWF q)
    (hempty : q.read = q.write) (input : List (List Sample)) (k : Nat)
    (hk : k ≤ _getAvailableWrite q.buffer_length q.read q.write) :
    ∃ q1, FQ_FreeQueuePush (some q) input k = (true, some q1) ∧
      (FQ_FreeQueuePull (some q1) k true).1 = k ∧
      (FQ_FreeQueuePull (some q1) k true).2.1 =
        (List.range q.channel_count).map fun ch =>
          (List.range k).map fun i => getSample input ch i := by
  obtain ⟨hlen, hr, hw, hcount, hrows⟩ := hwf
  have haw : _getAvailableWrite q.buffer_length q.read q.write =
      q.buffer_length - 1 := by
    unfold _getAvailableWrite
    rw [hempty, if_pos (le_refl _)]
    omega
  have hklen : k < q.buffer_length := by omega
  refine ⟨{ q with
      channel_data := copyIn q.channel_data input q.write q.buffer_length
        q.channel_count k
      write := (q.write + k) % q.buffer_length }, ?_, ?_, ?_⟩
  · simp only [FQ_FreeQueuePush]
    rw [if_neg (by omega)]
  · simp only [FQ_FreeQueuePull]
    rw [if_neg (by rw [hempty, availRead_after _ _ _ hw hklen]; omega)]
  · simp only [FQ_FreeQueuePull]
    rw [if_neg (by rw [hempty, availRead_after _ _ _ hw hklen]; omega)]
    simp only [outBlock]
    apply List.map_congr_left
    intro ch hch
    apply List.map_congr_left
    intro i hi
    have hch' : ch < q.channel_count := List.mem_range.mp hch
    have hi' : i < k := List.mem_range.mp hi
    rw [hempty]
    exact getSample_copyIn_eq _ _ _ _ _ _ (le_of_lt hklen) ch hch'
      (by omega) (getD_length_of_forall hrows (by omega)) i hi'

/-- Witness for `push_pull_roundtrip`: capacity 4, two channels, both
cursors at 4, pushing 3 samples per channel so the copy wraps around the
physical boundary. -/
theorem push_pull_roundtrip_witness :
    QueueWF ⟨5, 2, [[0, 0, 0, 0, 0], [0, 0, 0, 0, 0]], 4, 4⟩ ∧
      (4 : Nat) = 4 ∧ 3 ≤ _getAvailableWrite 5 4 4 ∧
      ∃ q1, FQ_FreeQueuePush
          (some ⟨5, 2, [[0, 0, 0, 0, 0], [0, 0, 0, 0, 0]], 4, 4⟩)
          [[1, 2, 3], [4, 5, 6]] 3 = (true, some q1) ∧
        (FQ_FreeQueuePull (some q1) 3 true).1 = 3 ∧
        (FQ_FreeQueuePull (some q1) 3 true).2.1 =
          (List.range 2).map fun ch =>
            (List.range 3).map fun i =>
              getSample [[1, 2, 3], [4, 5, 6]] ch i :=
  ⟨by decide, rfl, by decide,
    push_pull_roundtrip ⟨5, 2, [[0, 0, 0, 0, 0], [0, 0, 0, 0, 0]], 4, 4⟩
      (by decide) rfl [[1, 2, 3], [4, 5, 6]] 3 (by decide)⟩

theorem getD_map_range {α : Type} (f : Nat → α) (n i : Nat) (d : α)
    (h : i < n) : ((List.range n).map f).getD i d = f i := by
  rw [List.getD_eq_getElem?_getD, List.getElem?_map, List.getElem?_range h]
  rfl

/-- Claim C4: `FQ_FreeQueuePullFront` on a non-null queue never fails on
insufficient data: it clamps the request to `available_read`, copies that
many samples per channel starting at the read cursor, returns the clamped
count (`0` on an empty queue, in which case the state is unchanged), and
advances the read cursor by the clamped amount exactly when the advance
flag is set. -/
theorem pullfront_spec (q : FQ_FreeQueue) (hwf : QueueWF q)
    (block_length : Nat) (increment : Bool) :
    ∃ out q',
      FQ_FreeQueuePullFront (some q) block_length increment =
        (min block_length (_getAvailableRead q.buffer_length q.read q.write),
          out, some q') ∧
      (∀ ch < q.channel_count,
        ∀ i < min block_length
            (_getAvailableRead q.buffer_length q.read q.write),
          (out.getD ch []).getD i 0 =
            getSample q.channel_data ch ((q.read + i) % q.buffer_length)) ∧
      q'.channel_data = q.channel_data ∧ q'.write = q.write ∧
      q'.read = (if increment then
        (q.read + min block_length
          (_getAvailableRead q.buffer_length q.read q.write)) %
            q.buffer_length
        else q.read) ∧
      (_getAvailableRead q.buffer_length q.read q.write = 0 →
        min block_length (_getAvailableRead q.buffer_length q.read q.write) =
            0 ∧
          q' = q) := by
  obtain ⟨hlen, hr, hw, hcount, hrows⟩ := hwf
  have hclamp : (if _getAvailableRead q.buffer_length q.read q.write <
        block_length then _getAvailableRead q.buffer_length q.read q.write
      else block_length) =
      min block_length (_getAvailableRead q.buffer_length q.read q.write) := by
    rcases Nat.lt_or_ge (_getAvailableRead q.buffer_length q.read q.write)
      block_length with h | h
    · rw [if_pos h, Nat.min_eq_right (by omega)]
    · rw [if_neg (by omega), Nat.min_eq_left (by omega)]
  refine ⟨outBlock q.channel_data q.read q.buffer_length q.channel_count
      (min block_length (_getAvailableRead q.buffer_length q.read q.write)),
    if increment then
      { q with read := (q.read + min block_length
        (_getAvailableRead q.buffer_length q.read q.write)) % q.buffer_length }
    else q, ?_, ?_, ?_, ?_, ?_, ?_⟩
  · simp only [FQ_FreeQueuePullFront]
    rw [hclamp]
  · intro ch hch i hi
    unfold outBlock
    rw [getD_map_range _ _ _ _ hch, getD_map_range _ _ _ _ hi]
  · cases increment <;> rfl
  · cases increment <;> rfl
  · cases increment <;> rfl
  · intro h0
    refine ⟨by rw [h0]; exact Nat.min_zero block_length, ?_⟩
    cases increment
    · rfl
    · have hread : (q.read + min block_length
          (_getAvailableRead q.buffer_length q.read q.write)) %
            q.buffer_length = q.read := by
        rw [h0, Nat.min_zero, Nat.add_zero, Nat.mod_eq_of_lt hr]
      simp only [hread]
      rfl

/-- Witness for `pullfront_spec`: three readable samples, request 2. -/
theorem pullfront_spec_witness :
    QueueWF ⟨5, 1, [[30, 31, 32, 33, 34]], 3, 1⟩ ∧
      ∃ out q',
        FQ_FreeQueuePullFront (some ⟨5, 1, [[30, 31, 32, 33, 34]], 3, 1⟩) 2
            true =
          (min 2 (_getAvailableRead 5 3 1), out, some q') ∧
        (∀ ch < 1, ∀ i < min 2 (_getAvailableRead 5 3 1),
          (out.getD ch []).getD i 0 =
            getSample [[30, 31, 32, 33, 34]] ch ((3 + i) % 5)) ∧
        q'.channel_data = [[30, 31, 32, 33, 34]] ∧ q'.write = 1 ∧
        q'.read = (if true then (3 + min 2 (_getAvailableRead 5 3 1)) % 5
          else 3) ∧
        (_getAvailableRead 5 3 1 = 0 →
          min 2 (_getAvailableRead 5 3 1) = 0 ∧
            q' = ⟨5, 1, [[30, 31, 32, 33, 34]], 3, 1⟩) :=
  ⟨by decide,
    pullfront_spec ⟨5, 1, [[30, 31, 32, 33, 34]], 3, 1⟩ (by decide) 2 true⟩

/-- Claim C5 (code bug): `FQ_FreeQueuePullBack` is supposed to copy the
block of `min(block_length, available_read)` samples ending at the write
cursor.  On `capacity 4, 1 channel, buffer [30,31,32,33,34], read = 3,
write = 1` the readable samples are `[33, 34, 30]` (slots 3, 4, 0) and
that is also the block of 3 ending at `write = 1`; but
`(current_write - block_length + i)` is uint32 arithmetic, so the code
computes slot `(2^32 - 2 + i) % 5 = (4 + i) % 5` and returns
`[34, 30, 30]` — slot 1 is read in place of slot 3's sample. -/
theorem pullback_bug :
    _getAvailableRead 5 3 1 = 3 ∧
      FQ_FreeQueuePullBack (some ⟨5, 1, [[30, 31, 32, 33, 34]], 3, 1⟩) 3
          false =
        (3, [[34, 30, 30]], some ⟨5, 1, [[30, 31, 32, 33, 34]], 3, 1⟩) ∧
      ([[34, 30, 30]] : List (List Sample)) ≠ [[33, 34, 30]] := by decide

/-- Claim C6 (code bug): `FQ_FreeQueuePushBack` is supposed to evict the
oldest `block_length - available_write` samples and leave the surviving
old samples followed by the pushed block readable.  On `capacity 4,
1 channel, buffer [10,11,12,0,0], read = 0, write = 3` (readable
`[10, 11, 12]`, `available_write = 1`), pushing `[20, 21]` should leave
`[11, 12, 20, 21]` readable; the code instead sets the write cursor to
`(write - block_length + available_write) mod 5 = 2`, so only `[11, 12]`
is readable and the pushed block is lost to the reader. -/
theorem pushback_evict_bug :
    FQ_FreeQueuePushBack (some ⟨5, 1, [[10, 11, 12, 0, 0]], 0, 3⟩)
        [[20, 21]] 2 =
      some (true, some ⟨5, 1, [[11, 12, 20, 21, 0]], 0, 2⟩) ∧
      readableContent ⟨5, 1, [[10, 11, 12, 0, 0]], 0, 3⟩ 0 = [10, 11, 12] ∧
      readableContent ⟨5, 1, [[11, 12, 20, 21, 0]], 0, 2⟩ 0 = [11, 12] ∧
      ([11, 12] : List Sample) ≠ [11, 12, 20, 21] := by decide

/-- Claim C7: when `available_write` is at least `block_length`,
`FQ_FreeQueuePushBack` produces exactly the same result and final state
as `FQ_FreeQueuePush`, and that result is a success. -/
theorem pushback_eq_push (q : FQ_FreeQueue) (input : List (List Sample))
    (block_length : Nat)
    (h : block_length ≤ _getAvailableWrite q.buffer_length q.read q.write) :
    FQ_FreeQueuePushBack (some q) input block_length =
        some (FQ_FreeQueuePush (some q) input block_length) ∧
      (FQ_FreeQueuePush (some q) input block_length).1 = true := by
  constructor
  · simp only [FQ_FreeQueuePushBack, FQ_FreeQueuePush]
    rw [if_neg (Nat.not_lt.2 h), if_neg (Nat.not_lt.2 h)]
  · simp only [FQ_FreeQueuePush]
    rw [if_neg (Nat.not_lt.2 h)]

/-- Witness for `pushback_eq_push` at an empty queue of capacity 4. -/
theorem pushback_eq_push_witness :
    2 ≤ _getAvailableWrite 5 0 0 ∧
      FQ_FreeQueuePushBack (some ⟨5, 1, [[0, 0, 0, 0, 0]], 0, 0⟩) [[1, 2]]
          2 =
        some (FQ_FreeQueuePush (some ⟨5, 1, [[0, 0, 0, 0, 0]], 0, 0⟩)
          [[1, 2]] 2) ∧
      (FQ_FreeQueuePush (some ⟨5, 1, [[0, 0, 0, 0, 0]], 0, 0⟩) [[1, 2]]
        2).1 = true :=
  ⟨by decide,
    (pushback_eq_push ⟨5, 1, [[0, 0, 0, 0, 0]], 0, 0⟩ [[1, 2]] 2
      (by decide)).1,
    (pushback_eq_push ⟨5, 1, [[0, 0, 0, 0, 0]], 0, 0⟩ [[1, 2]] 2
      (by decide)).2⟩

/-- Claim C8: `FQ_FreeQueuePushFront` on a non-null queue returns `false`
immediately, with no mutation, when `block_length` exceeds the physical
buffer length, and returns `true` otherwise. -/
theorem pushfront_spec (q : FQ_FreeQueue) (input : List (List Sample))
    (block_length : Nat) :
    (q.buffer_length < block_length →
      FQ_FreeQueuePushFront (some q) input block_length = (false, some q)) ∧
      (block_length ≤ q.buffer_length →
        (FQ_FreeQueuePushFront (some q) input block_length).1 = true) := by
  constructor
  · intro h
    simp only [FQ_FreeQueuePushFront]
    rw [if_pos h]
  · intro h
    simp only [FQ_FreeQueuePushFront]
    rw [if_neg (Nat.not_lt.2 h)]
    split <;> rfl

/-- Witness for `pushfront_spec`: an oversized block (length 7 against
physical length 5) is rejected without mutation, and an in-range block is
accepted. -/
theorem pushfront_spec_witness :
    ((5 : Nat) < 7 →
      FQ_FreeQueuePushFront (some ⟨5, 1, [[0, 0, 0, 0, 0]], 0, 3⟩)
          [[1, 2, 3, 4, 5, 6, 7]] 7 =
        (false, some ⟨5, 1, [[0, 0, 0, 0, 0]], 0, 3⟩)) ∧
      (2 ≤ (5 : Nat) →
        (FQ_FreeQueuePushFront (some ⟨5, 1, [[0, 0, 0, 0, 0]], 0, 3⟩)
          [[1, 2]] 2).1 = true) :=
  ⟨(pushfront_spec ⟨5, 1, [[0, 0, 0, 0, 0]], 0, 3⟩ [[1, 2, 3, 4, 5, 6, 7]]
      7).1,
    (pushfront_spec ⟨5, 1, [[0, 0, 0, 0, 0]], 0, 3⟩ [[1, 2]] 2).2⟩

/-- Claim C9 counterexample: the `FreeQueue` API variant does not
tolerate a null handle.  `FreeQueuePush` and `FreeQueuePull` in
free_queue.cpp perform no null check — their first action dereferences
the handle (`atomic_load(queue->state + READ)`) — so on a null handle
they fault (modelled by `none`) instead of returning `false`/`0`. -/
theorem freequeue_null_cex :
    FreeQueuePush none [[(1 : Sample)]] 1 = none ∧
      FreeQueuePull none 1 = none :=
  ⟨rfl, rfl⟩

/-- Claim C9 (amended): every push/pull operation of the `FQ_` API
variant, given a null handle, reports failure (`false` or a zero count)
without accessing the handle; the `FreeQueue` variant's `FreeQueuePush`
and `FreeQueuePull` perform no null check and dereference the handle
instead. -/
theorem null_handle_spec (input : List (List Sample)) (block_length : Nat)
    (increment : Bool) :
    FQ_FreeQueuePush none input block_length = (false, none) ∧
      FQ_FreeQueuePull none block_length increment = (0, [], none) ∧
      FQ_FreeQueuePullFront none block_length increment = (0, [], none) ∧
      FQ_FreeQueuePullBack none block_length increment = (0, [], none) ∧
      FQ_FreeQueuePushFront none input block_length = (false, none) ∧
      FQ_FreeQueuePushBack none input block_length = some (false, none) ∧
      FreeQueuePush none input block_length = none ∧
      FreeQueuePull none block_length = none :=
  ⟨rfl, rfl, rfl, rfl, rfl, rfl, rfl, rfl⟩

/-- Claim C10 counterexample: `FQ_FreeQueuePushBack` does not return
`true` for every `block_length`.  On an empty queue of capacity 2
(`available_write = 2`), a block of length 6 makes the deficit
`block_length - available_write = 4` exceed the physical length 3, so the
uint32 shift-loop bound `buffer_length - deficit` underflows and the loop
runs out of bounds (modelled by `none`) instead of returning `true`. -/
theorem pushback_oob_cex :
    _getAvailableWrite 3 0 0 = 2 ∧
      FQ_FreeQueuePushBack (some ⟨3, 1, [[0, 0, 0]], 0, 0⟩)
        [[1, 2, 3, 4, 5, 6]] 6 = none := by decide

/-- Claim C10 (amended): `FQ_FreeQueuePushBack` has no size or capacity
precondition check, and on a non-null queue it returns `true` for every
`block_length` up to `buffer_length + available_write` — including
`block_length` greater than the physical buffer length; beyond that bound
the uint32 shift-loop bound underflows and the code accesses memory out
of bounds instead of returning. -/
theorem pushback_returns_true (q : FQ_FreeQueue)
    (input : List (List Sample)) (block_length : Nat)
    (h : block_length ≤ q.buffer_length +
      _getAvailableWrite q.buffer_length q.read q.write) :
    (FQ_FreeQueuePushBack (some q) input block_length).map Prod.fst =
      some true := by
  simp only [FQ_FreeQueuePushBack]
  rcases Nat.lt_or_ge (_getAvailableWrite q.buffer_length q.read q.write)
    block_length with hlt | hge
  · rw [if_pos hlt, if_neg (by omega)]
    rfl
  · rw [if_neg (by omega)]
    rfl

/-- Witness for `pushback_returns_true`: a block of length 6, larger than
the physical length 5, still yields `true` (deficit 5 equals the physical
length, so the shift loop is empty but in bounds). -/
theorem pushback_returns_true_witness :
    6 ≤ 5 + _getAvailableWrite 5 0 3 ∧
      (FQ_FreeQueuePushBack (some ⟨5, 1, [[0, 0, 0, 0, 0]], 0, 3⟩)
        [[1, 2, 3, 4, 5, 6]] 6).map Prod.fst = some true :=
  ⟨by decide,
    pushback_returns_true ⟨5, 1, [[0, 0, 0, 0, 0]], 0, 3⟩
      [[1, 2, 3, 4, 5, 6]] 6 (by decide)⟩

end FQSpec
